import Mathlib

/-!
Verification of the AirportSecuritySim repository: a discrete-event
simulation of a three-stage airport security pipeline (boarding-pass
check, baggage screening, body screening) with three lane-selection
variants (centralized pools, random lane, greedy least-loaded lane).

Simulated time is modelled by the rationals (the Python floats carry
exact small decimals here). Each Python function under src/ that the
claims cite is embedded as a Lean definition of the same name
(snake_case rendered as camelCase). The simpy primitives used by the
source (simpy.Resource, simpy.Environment) are not part of src/, so the
resource-pool and event-scheduler semantics are modelled from the
spec's ResourcePool / EventScheduler contracts; those definitions are
marked `Modelled from the spec:` in their doc comments.
-/

namespace AirportSecuritySim

/-- The three service stages of the pipeline, in the order the source's
`check_passenger` traverses them. -/
inductive Stage where
  | officer
  | baggage
  | body
deriving DecidableEq, Repr

/-- Modelled from the spec: ResourcePool (the source's `simpy.Resource`,
which is not under src/). `capacity` servers, `inUse` currently held
slots, `waiters` the FCFS queue of suspended entity ids, in request
order (earliest first). -/
structure ResourcePool where
  capacity : Nat
  inUse : Nat
  waiters : List Nat
deriving DecidableEq, Repr

/-- Modelled from the spec: `release()` pops the earliest waiter, keeping
`inUse` constant (decremented and re-incremented on the waiter's
behalf); with no waiter it just decrements `inUse`. Returns the updated
pool and the waiter, if any, whose slot is handed over. -/
def ResourcePool.release (p : ResourcePool) : ResourcePool × Option Nat :=
  match p.waiters with
  | [] => ({ p with inUse := p.inUse - 1 }, none)
  | w :: rest => ({ p with waiters := rest }, some w)

/-- Modelled from the spec: a full `acquire()` appends the caller to the
end of the FCFS wait queue. -/
def ResourcePool.enqueue (p : ResourcePool) (pid : Nat) : ResourcePool :=
  { p with waiters := p.waiters ++ [pid] }

/-- One security lane, as built by `AirportSecurity.__init__` in the
multi-lane variants: one resource per stage (the source's dict with keys
"officer", "baggage_screener", "body_screener"). -/
structure Lane where
  officer : ResourcePool
  baggageScreener : ResourcePool
  bodyScreener : ResourcePool
deriving DecidableEq, Repr

/-- The stage's pool inside a lane. -/
def Lane.pool (lane : Lane) : Stage → ResourcePool
  | .officer => lane.officer
  | .baggage => lane.baggageScreener
  | .body => lane.bodyScreener

/-- Replace the stage's pool inside a lane. -/
def Lane.setPool (lane : Lane) : Stage → ResourcePool → Lane
  | .officer, p => { lane with officer := p }
  | .baggage, p => { lane with baggageScreener := p }
  | .body, p => { lane with bodyScreener := p }

/-- Placeholder lane used only as the default of list lookups that are
always in bounds. -/
def dummyLane : Lane :=
  ⟨⟨0, 0, []⟩, ⟨0, 0, []⟩, ⟨0, 0, []⟩⟩

/-- From `choose_dynamic_lane` (multiple_queues_dynamic_selection_optimal.py,
lines 52-58): per-stage effective load, `len(resource.queue)` plus 1 if
`resource.count >= resource.capacity`. -/
def effectiveLoad (r : ResourcePool) : Nat :=
  r.waiters.length + (if r.capacity ≤ r.inUse then 1 else 0)

/-- Total load of a lane: the sum of the effective loads of its officer,
baggage-screener and body-screener resources, in that iteration order. -/
def laneLoad (lane : Lane) : Nat :=
  effectiveLoad lane.officer + effectiveLoad lane.baggageScreener +
    effectiveLoad lane.bodyScreener

/-- The loop of `choose_dynamic_lane`: scans lanes with index `i`,
carrying `(best_lane, best_lane_index, best_load)`; `best_load = none`
renders the initial `float('inf')`, against which any total load
compares smaller. Updates only on strictly smaller load. -/
def chooseGo : List Lane → Nat → (Option Lane × Int × Option Nat) →
    (Option Lane × Int × Option Nat)
  | [], _, acc => acc
  | lane :: rest, i, acc =>
    match acc with
    | (_, _, none) => chooseGo rest (i + 1) (some lane, (i : Int), some (laneLoad lane))
    | (bl, bi, some b) =>
      if laneLoad lane < b then
        chooseGo rest (i + 1) (some lane, (i : Int), some (laneLoad lane))
      else
        chooseGo rest (i + 1) (bl, bi, some b)

/-- `choose_dynamic_lane` (multiple_queues_dynamic_selection_optimal.py,
lines 36-61): starts from `(None, -1, float('inf'))` and returns the
best lane together with its index. -/
def chooseDynamicLane (lanes : List Lane) : Option Lane × Int :=
  let r := chooseGo lanes 0 (none, -1, none)
  (r.1, r.2.1)

/-- The lane index used at each of the three stages of the dynamic
variant's `check_passenger` when no lane is pre-assigned: the lane is
chosen once on arrival and that same lane's officer, baggage-screener
and body-screener resources are used in order. -/
def checkPassengerLaneSeq (lanes : List Lane) : List (Int × Stage) :=
  let r := chooseDynamicLane lanes
  [(r.2, .officer), (r.2, .baggage), (r.2, .body)]

/-- `get_mean_interarrival_time` (identical in all three source files):
mean 1.0 below time 10, 0.5 from 10 up to 50, and 1.0 from 50 on. -/
def getMeanInterarrivalTime (currentTime : ℚ) : ℚ :=
  if currentTime < 10 then 1
  else if currentTime < 50 then 1 / 2
  else 1

/-- The delay `passenger_arrivals` sleeps before the next spawn:
`random.expovariate(1.0 / mean)` scales a unit-mean exponential draw `e`
by the mean evaluated at the current time (the previous arrival's
time). -/
def arrivalDelay (now e : ℚ) : ℚ :=
  getMeanInterarrivalTime now * e

/-- Service duration of a stage given the unit uniform draw `u`:
`random.uniform(a, b) = a + (b - a) * u` with the source's bounds —
boarding-pass 0.3..0.7, baggage 2..3, body 0.5..1 minutes. -/
def serviceDur (s : Stage) (u : ℚ) : ℚ :=
  match s with
  | .officer => 3 / 10 + (7 / 10 - 3 / 10) * u
  | .baggage => 2 + (3 - 2) * u
  | .body => 1 / 2 + (1 - 1 / 2) * u

/-- Python's built-in `round`: round half to even (banker's rounding). -/
def pyRound (x : ℚ) : ℤ :=
  let n := ⌊x⌋
  let r := x - n
  if r < 1 / 2 then n
  else if 1 / 2 < r then n + 1
  else if Even n then n else n + 1

/-- `statistics.mean`: the arithmetic mean, raising StatisticsError on an
empty input list. -/
def statisticsMean (xs : List ℚ) : Except String ℚ :=
  if xs = [] then .error "StatisticsError: mean requires at least one data point"
  else .ok (xs.sum / xs.length)

/-- `calculate_wait_time` (central_queue.py lines 101-105):
`minutes, frac = divmod(mean, 1); seconds = frac * 60;
return round(minutes), round(seconds)`. `divmod(x, 1)` is
`(⌊x⌋, x - ⌊x⌋)`. Propagates the StatisticsError of an empty list. -/
def calculateWaitTime (ws : List ℚ) : Except String (ℤ × ℤ) :=
  match statisticsMean ws with
  | .error e => .error e
  | .ok m =>
    let minutes : ℤ := ⌊m⌋
    let fracMinutes : ℚ := m - minutes
    let seconds : ℚ := fracMinutes * 60
    .ok (pyRound (minutes : ℚ), pyRound seconds)

/-- Modelled from the spec: an EventScheduler event — due time, insertion
sequence number (unique, monotonically assigned), and its payload. -/
structure Ev (α : Type) where
  due : ℚ
  seq : Nat
  act : α
deriving DecidableEq, Repr

/-- Strict deterministic event order: earlier due time first, equal due
times broken by insertion sequence (FIFO). -/
def evLt {α : Type} (x y : Ev α) : Prop :=
  x.due < y.due ∨ (x.due = y.due ∧ x.seq < y.seq)

instance {α : Type} (x y : Ev α) : Decidable (evLt x y) := by
  unfold evLt; infer_instance

/-- Modelled from the spec: inserting an event into the time-ordered
pending queue, keeping the `(due, seq)` order. -/
def insertEv {α : Type} (e : Ev α) : List (Ev α) → List (Ev α)
  | [] => [e]
  | x :: xs => if evLt e x then e :: x :: xs else x :: insertEv e xs

/-- One completion record, as produced at the end of `check_passenger`:
the entity, its arrival time, its departure time (`env.now` at
completion), and the appended sojourn `env.now - arrival_time`. -/
structure CompletionRecord where
  pid : Nat
  arrival : ℚ
  departure : ℚ
  sojourn : ℚ
deriving DecidableEq, Repr

/-- The three run variants of the repository, one per source file. -/
inductive Policy where
  | central
  | randomSel
  | dynamicSel
deriving DecidableEq, Repr

/-- A run configuration: which source variant, how many lanes
(`num_lanes`; ignored by the central variant, whose `run_airport`
ignores its `num_lanes` parameter), and the horizon (`running_time`). -/
structure Cfg where
  policy : Policy
  numLanes : Nat
  horizon : ℚ
deriving DecidableEq, Repr

/-- The pending actions a scheduled event can resume. `startP` begins a
passenger's `check_passenger` (with its pre-assigned lane, if any);
`endServ` fires when a stage's service timeout elapses; `resumeW` resumes
a waiter to whom a released slot was handed; `arrStart` starts the
`passenger_arrivals` process and `arrWake` resumes it after a gap. -/
inductive Act where
  | startP (pid : Nat) (assignedLane : Option Nat)
  | endServ (pid laneIdx : Nat) (s : Stage)
  | resumeW (pid laneIdx : Nat) (s : Stage)
  | arrStart
  | arrWake
deriving DecidableEq, Repr

/-- Simulation state: clock, next insertion sequence number, pending
event queue (kept `(due, seq)`-sorted), the lanes' pools, each started
passenger's arrival time, the index of the next random draw, and the id
of the next generated passenger. -/
structure SimSt where
  now : ℚ
  nextSeq : Nat
  queue : List (Ev Act)
  lanes : List Lane
  arrivalOf : List (Nat × ℚ)
  drawIdx : Nat
  nextPid : Nat
deriving DecidableEq, Repr

/-- Modelled from the spec: `schedule(delay, continuation)` enqueues a
resumption at `now + delay` with the next insertion sequence number. -/
def SimSt.schedule (st : SimSt) (delay : ℚ) (a : Act) : SimSt :=
  { st with
    queue := insertEv ⟨st.now + delay, st.nextSeq, a⟩ st.queue
    nextSeq := st.nextSeq + 1 }

/-- Consume the next value of the injected random stream. -/
def SimSt.draw (st : SimSt) (draws : Nat → ℚ) : ℚ × SimSt :=
  (draws st.drawIdx, { st with drawIdx := st.drawIdx + 1 })

/-- The lane at an index (always called in bounds). -/
def getLane (lanes : List Lane) (i : Nat) : Lane :=
  lanes.getD i dummyLane

/-- Update one lane's pool for a stage. -/
def setStagePool (lanes : List Lane) (i : Nat) (s : Stage) (p : ResourcePool) :
    List Lane :=
  lanes.set i ((getLane lanes i).setPool s p)

/-- A passenger's recorded arrival time (always recorded at `startP`). -/
def lookupArrival (xs : List (Nat × ℚ)) (pid : Nat) : ℚ :=
  match xs.find? (fun kv => kv.1 = pid) with
  | some kv => kv.2
  | none => 0

/-- Begin a stage's service: draw the uniform sample and schedule the
service-completion event after the stage's sampled duration (the source
stage methods `check_boarding_pass` / `scan_baggage` / `scan_body`). -/
def startService (draws : Nat → ℚ) (st : SimSt) (pid laneIdx : Nat) (s : Stage) :
    SimSt :=
  let du := st.draw draws
  (du.2).schedule (serviceDur s du.1) (.endServ pid laneIdx s)

/-- `with lane[stage].request() as req: yield req` — acquire the stage's
pool: start service at once when a slot is free, otherwise join the end
of the FCFS wait queue (pool semantics modelled from the spec). -/
def requestStage (draws : Nat → ℚ) (st : SimSt) (pid laneIdx : Nat) (s : Stage) :
    SimSt :=
  let p := (getLane st.lanes laneIdx).pool s
  if p.inUse < p.capacity then
    let st1 := { st with
      lanes := setStagePool st.lanes laneIdx s { p with inUse := p.inUse + 1 } }
    startService draws st1 pid laneIdx s
  else
    { st with lanes := setStagePool st.lanes laneIdx s (p.enqueue pid) }

/-- Exiting the `with` block: release the stage's pool; when a waiter is
handed the freed slot, its resumption is scheduled at the current
instant (zero-delay event), per the spec's ResourcePool contract. -/
def releaseStage (st : SimSt) (laneIdx : Nat) (s : Stage) : SimSt :=
  let pr := ((getLane st.lanes laneIdx).pool s).release
  let st1 := { st with lanes := setStagePool st.lanes laneIdx s pr.1 }
  match pr.2 with
  | none => st1
  | some w => st1.schedule 0 (.resumeW w laneIdx s)

/-- The stage after a stage, in `check_passenger`'s fixed order. -/
def nextStage : Stage → Option Stage
  | .officer => some .baggage
  | .baggage => some .body
  | .body => none

/-- `random.choice(security.lanes)` given a unit uniform draw: the
uniform index `⌊u * n⌋`, clamped into range. -/
def randIndex (u : ℚ) (n : Nat) : Nat :=
  min (⌊u * n⌋).toNat (n - 1)

/-- Lane selection at a passenger's start, per variant: the central
variant has the single shared group; the random variant draws a lane
uniformly (`random.choice`); the dynamic variant calls
`choose_dynamic_lane` on the current pools. -/
def chooseLaneIdx (draws : Nat → ℚ) (policy : Policy) (st : SimSt) :
    Nat × SimSt :=
  match policy with
  | .central => (0, st)
  | .randomSel =>
    let du := st.draw draws
    (randIndex du.1 du.2.lanes.length, du.2)
  | .dynamicSel => ((chooseDynamicLane st.lanes).2.toNat, st)

/-- Execute one resumed event, returning the new state and the completion
records it produced (`wait_times.append` happens only when the third
stage's service ends). Translated from `check_passenger` and
`passenger_arrivals`; the acquire/release/scheduling semantics inside it
are modelled from the spec as noted on the helpers. -/
def execAct (draws : Nat → ℚ) (policy : Policy) (a : Act) (st : SimSt) :
    SimSt × List CompletionRecord :=
  match a with
  | .startP pid assignedLane =>
    let ls : Nat × SimSt :=
      match assignedLane with
      | some i => (i, st)
      | none => chooseLaneIdx draws policy st
    let st2 := { ls.2 with arrivalOf := (pid, ls.2.now) :: ls.2.arrivalOf }
    (requestStage draws st2 pid ls.1 .officer, [])
  | .endServ pid laneIdx s =>
    let st1 := releaseStage st laneIdx s
    match nextStage s with
    | some s2 => (requestStage draws st1 pid laneIdx s2, [])
    | none =>
      let arr := lookupArrival st1.arrivalOf pid
      (st1, [{ pid := pid, arrival := arr, departure := st1.now,
               sojourn := st1.now - arr }])
  | .resumeW pid laneIdx s => (startService draws st pid laneIdx s, [])
  | .arrStart =>
    let du := st.draw draws
    (du.2.schedule (arrivalDelay du.2.now du.1) .arrWake, [])
  | .arrWake =>
    let pid := st.nextPid
    let st1 := { st with nextPid := pid + 1 }
    let st2 := st1.schedule 0 (.startP pid none)
    let du := st2.draw draws
    (du.2.schedule (arrivalDelay du.2.now du.1) .arrWake, [])

/-- Modelled from the spec: the EventScheduler loop. Pops the earliest
pending event; stops when the queue is empty or the next due time
exceeds the horizon; otherwise advances the clock to the due time,
executes the resumption, and appends any produced completion records to
the accumulator (the module-level `wait_times` list, which the rest of
the simulation never reads). `fuel` bounds the number of executed
events. -/
def loop (draws : Nat → ℚ) (cfg : Cfg) :
    Nat → SimSt → List CompletionRecord → List CompletionRecord
  | 0, _, acc => acc
  | fuel + 1, st, acc =>
    match st.queue with
    | [] => acc
    | e :: rest =>
      if cfg.horizon < e.due then acc
      else
        let r := execAct draws cfg.policy e.act { st with now := e.due, queue := rest }
        loop draws cfg fuel r.1 (acc ++ r.2)

/-- The pools built by `AirportSecurity.__init__`: the central variant's
single group with capacities (2, 6, 2) as in its `run_airport`; the
multi-lane variants' `num_lanes` lanes with one capacity-1 resource of
each type. -/
def initLanes (cfg : Cfg) : List Lane :=
  match cfg.policy with
  | .central => [⟨⟨2, 0, []⟩, ⟨6, 0, []⟩, ⟨2, 0, []⟩⟩]
  | _ => List.replicate cfg.numLanes ⟨⟨1, 0, []⟩, ⟨1, 0, []⟩, ⟨1, 0, []⟩⟩

/-- The initial passengers `run_airport` pre-populates: 2 in the central
variant, 2 per lane (lane-major order) in the multi-lane variants. -/
def initialPassengerCount (cfg : Cfg) : Nat :=
  match cfg.policy with
  | .central => 2
  | _ => 2 * cfg.numLanes

/-- The pre-assigned lane of an initial passenger. -/
def initialLaneOf (cfg : Cfg) (pid : Nat) : Nat :=
  match cfg.policy with
  | .central => 0
  | _ => pid / 2

/-- `run_airport`'s setup: the initial passengers' process-start events
(due 0, in creation order), then the `passenger_arrivals` process start.
The list is `(due, seq)`-sorted by construction. -/
def initEvents (cfg : Cfg) : List (Ev Act) :=
  ((List.range (initialPassengerCount cfg)).map
    (fun pid => ⟨0, pid, Act.startP pid (some (initialLaneOf cfg pid))⟩)) ++
    [⟨0, initialPassengerCount cfg, Act.arrStart⟩]

/-- The state at the start of `env.run`. -/
def initSt (cfg : Cfg) : SimSt :=
  { now := 0
    nextSeq := initialPassengerCount cfg + 1
    queue := initEvents cfg
    lanes := initLanes cfg
    arrivalOf := []
    drawIdx := 0
    nextPid := initialPassengerCount cfg }

/-- `run_airport` with the module-level `wait_times` list passed
explicitly: the run appends its completion records to whatever the list
already holds, and nothing ever resets it. -/
def runAirportG (wt : List CompletionRecord) (draws : Nat → ℚ) (cfg : Cfg)
    (fuel : Nat) : List CompletionRecord :=
  loop draws cfg fuel (initSt cfg) wt

/-- One `run_airport` invocation started from an empty record list: the
sequence of completion records of the run, as a function of the injected
random stream, the configuration and the event budget. -/
def runAirport (draws : Nat → ℚ) (cfg : Cfg) (fuel : Nat) :
    List CompletionRecord :=
  runAirportG [] draws cfg fuel

/-! ### A single capacity-limited pool in isolation

The spec's FCFS test scenario exercises one ResourcePool through the
event scheduler, with a fixed holding time per entity. -/

/-- Actions of the single-pool scenario: an entity requests `acquire`,
a holder's fixed holding time elapses (`release`), a queued waiter is
resumed with the freed slot (`resume`). -/
inductive QAct where
  | request (eid : Nat)
  | release (eid : Nat)
  | resume (eid : Nat)
deriving DecidableEq, Repr

/-- State of the single-pool scenario: clock, next insertion sequence,
pending events, the pool, and each entity's service start time in the
order service began. -/
structure FcfsSt where
  now : ℚ
  nextSeq : Nat
  queue : List (Ev QAct)
  pool : ResourcePool
  starts : List (Nat × ℚ)
deriving DecidableEq, Repr

/-- Modelled from the spec: scheduling in the single-pool scenario. -/
def fcfsSchedule (st : FcfsSt) (delay : ℚ) (a : QAct) : FcfsSt :=
  { st with
    queue := insertEv ⟨st.now + delay, st.nextSeq, a⟩ st.queue
    nextSeq := st.nextSeq + 1 }

/-- Modelled from the spec: one event of the single-pool scenario. An
`acquire` on a free slot starts service immediately and holds for
`hold`; on a full pool it appends the caller to the FCFS queue. A
release hands the freed slot to the earliest waiter, scheduling its
resumption at the current instant; the resumed waiter's service then
starts and holds for `hold`. -/
def fcfsExec (hold : ℚ) (a : QAct) (st : FcfsSt) : FcfsSt :=
  match a with
  | .request e =>
    let p := st.pool
    if p.inUse < p.capacity then
      let st1 := { st with
        pool := { p with inUse := p.inUse + 1 }
        starts := st.starts ++ [(e, st.now)] }
      fcfsSchedule st1 hold (.release e)
    else
      { st with pool := p.enqueue e }
  | .release _ =>
    let pr := st.pool.release
    let st1 := { st with pool := pr.1 }
    match pr.2 with
    | none => st1
    | some w => fcfsSchedule st1 0 (.resume w)
  | .resume w =>
    let st1 := { st with starts := st.starts ++ [(w, st.now)] }
    fcfsSchedule st1 hold (.release w)

/-- Modelled from the spec: the scheduler loop of the single-pool
scenario (no horizon; `fuel` bounds the executed events). -/
def fcfsLoop (hold : ℚ) : Nat → FcfsSt → FcfsSt
  | 0, st => st
  | fuel + 1, st =>
    match st.queue with
    | [] => st
    | e :: rest =>
      fcfsLoop hold fuel (fcfsExec hold e.act { st with now := e.due, queue := rest })

/-- Run the single-pool scenario: entity `i + 1` requests `acquire` at
`arrivals[i]` (insertion order = list order), each holding the pool for
`hold` once served; returns the service start times in the order
service began. -/
def fcfsRun (cap : Nat) (hold : ℚ) (arrivals : List ℚ) (fuel : Nat) :
    List (Nat × ℚ) :=
  let evs := (List.range arrivals.length).map
    (fun i => (⟨arrivals.getD i 0, i, QAct.request (i + 1)⟩ : Ev QAct))
  let st0 : FcfsSt :=
    { now := 0
      nextSeq := arrivals.length
      queue := evs.foldl (fun q e => insertEv e q) []
      pool := ⟨cap, 0, []⟩
      starts := [] }
  (fcfsLoop hold fuel st0).starts

/-! ### The straight-line structure of `check_passenger` -/

/-- The atomic steps of one passenger's journey, as readable from
`check_passenger`'s straight-line body: entering a `with
lane[...].request()` block acquires, the `yield env.process(...)` inside
it is the service, leaving the block releases, and the final
`wait_times.append` is the departure. -/
inductive PAct where
  | acquire (s : Stage)
  | service (s : Stage)
  | release (s : Stage)
  | depart
deriving DecidableEq, Repr

/-- The stage order of `check_passenger`'s three `with` blocks. -/
def stages : List Stage := [.officer, .baggage, .body]

/-- One `with` block: acquire the stage's resource, be serviced by it,
release it. -/
def stageActs (s : Stage) : List PAct :=
  [.acquire s, .service s, .release s]

/-- The full action sequence of one `check_passenger` execution: the
three stages' blocks in source order, then the single departure. -/
def checkPassengerActs : List PAct :=
  (stages.map stageActs).flatten ++ [.depart]

/-- The departure time of a passenger arriving at `arrival` whose three
stages wait `w1, w2, w3` in the acquire queues and draw `u1, u2, u3` for
their service durations — `env.now` when `check_passenger` finishes. -/
def checkPassengerDeparture (arrival w1 u1 w2 u2 w3 u3 : ℚ) : ℚ :=
  arrival + (w1 + serviceDur .officer u1) + (w2 + serviceDur .baggage u2) +
    (w3 + serviceDur .body u3)

/-- The record `check_passenger` produces at its end:
`total_time = env.now - arrival_time` appended to `wait_times`. -/
def checkPassengerRecord (pid : Nat) (arrival w1 u1 w2 u2 w3 u3 : ℚ) :
    CompletionRecord :=
  let d := checkPassengerDeparture arrival w1 u1 w2 u2 w3 u3
  { pid := pid, arrival := arrival, departure := d, sojourn := d - arrival }

/-! ## Theorems -/

/-- The scheduler loop only appends to the completion-record accumulator
and never reads it: running from any pre-existing record list yields
that list followed by the run's own records. -/
theorem loop_append (draws : Nat → ℚ) (cfg : Cfg) :
    ∀ (fuel : Nat) (st : SimSt) (acc : List CompletionRecord),
      loop draws cfg fuel st acc = acc ++ loop draws cfg fuel st [] := by
  intro fuel
  induction fuel with
  | zero => intro st acc; simp [loop]
  | succ n ih =>
    intro st acc
    match hq : st.queue with
    | [] => simp [loop, hq]
    | e :: rest =>
      by_cases hd : cfg.horizon < e.due
      · simp [loop, hq, hd]
      · simp only [loop, hq, if_neg hd]
        rw [ih _ (acc ++ _), ih _ ([] ++ _)]
        simp

/-- C3 counterexample: with zero completions, `calculate_wait_time`
raises `statistics.StatisticsError` (the mean of an empty list), so the
run ends with an uncaught error instead of a NoData report. -/
theorem calculateWaitTime_empty_error :
    calculateWaitTime [] =
      .error "StatisticsError: mean requires at least one data point" := rfl

/-- C3 (amended): `calculate_wait_time` fails with StatisticsError
exactly when the list of recorded sojourn times is empty; on any
non-empty list it returns the mean decomposition without error. -/
theorem calculateWaitTime_error_iff_empty (ws : List ℚ) :
    calculateWaitTime ws =
        .error "StatisticsError: mean requires at least one data point" ↔
      ws = [] := by
  by_cases h : ws = [] <;> simp [calculateWaitTime, statisticsMean, h]

/-- C4 counterexample: the completion collection is the module-level
`wait_times`, which `run_airport` never resets — after two identical
runs in one process it holds both runs' records, not just the second
run's own completions. -/
theorem runAirportG_not_run_scoped :
    runAirportG (runAirportG [] (fun _ => 1 / 2) ⟨.central, 4, 4⟩ 200)
        (fun _ => 1 / 2) ⟨.central, 4, 4⟩ 200 ≠
      runAirport (fun _ => 1 / 2) ⟨.central, 4, 4⟩ 200 :=
  of_decide_eq_true (by with_unfolding_all rfl)

/-- C4 (amended): `wait_times` is process-wide global state; a run
appends its completions after whatever the list already holds, so the
collection after a second run is the first run's records followed by the
second run's records. -/
theorem runAirportG_append_global (wt : List CompletionRecord)
    (draws : Nat → ℚ) (cfg : Cfg) (fuel : Nat) :
    runAirportG wt draws cfg fuel = wt ++ runAirport draws cfg fuel :=
  loop_append draws cfg fuel (initSt cfg) wt

/-- C6: the mean interarrival time is the fixed piecewise function of
current simulated time — 1.0 below 10, 0.5 on [10, 50), 1.0 from 50 on —
and the gap `passenger_arrivals` sleeps scales its exponential draw by
the mean evaluated at the current (previous-arrival) time. -/
theorem getMeanInterarrivalTime_piecewise (t : ℚ) :
    (t < 10 → getMeanInterarrivalTime t = 1) ∧
    (10 ≤ t → t < 50 → getMeanInterarrivalTime t = 1 / 2) ∧
    (50 ≤ t → getMeanInterarrivalTime t = 1) ∧
    (∀ e : ℚ, arrivalDelay t e = getMeanInterarrivalTime t * e) := by
  refine ⟨fun h => ?_, fun h10 h50 => ?_, fun h => ?_, fun e => rfl⟩
  · simp [getMeanInterarrivalTime, h]
  · have : ¬ t < 10 := by linarith
    simp [getMeanInterarrivalTime, this, h50]
  · have h1 : ¬ t < 10 := by linarith
    have h2 : ¬ t < 50 := by linarith
    simp [getMeanInterarrivalTime, h1, h2]

/-- C6 witness: the three regimes at sample times 5, 20 and 60. -/
theorem getMeanInterarrivalTime_piecewise_witness :
    getMeanInterarrivalTime 5 = 1 ∧ getMeanInterarrivalTime 20 = 1 / 2 ∧
      getMeanInterarrivalTime 60 = 1 ∧
      arrivalDelay 0 1 = getMeanInterarrivalTime 0 * 1 :=
  ⟨(getMeanInterarrivalTime_piecewise 5).1 (by norm_num),
    (getMeanInterarrivalTime_piecewise 20).2.1 (by norm_num) (by norm_num),
    (getMeanInterarrivalTime_piecewise 60).2.2.1 (by norm_num),
    (getMeanInterarrivalTime_piecewise 0).2.2.2 1⟩

/-- C7: every completed passenger's record satisfies
`sojourn = departure - arrival`, and with nonnegative queueing waits and
nonnegative uniform draws (each stage's sampled service time is then
strictly positive) the departure is strictly later than the arrival. -/
theorem checkPassengerRecord_sojourn_pos (pid : Nat)
    (arrival w1 u1 w2 u2 w3 u3 : ℚ) (hw1 : 0 ≤ w1) (hw2 : 0 ≤ w2)
    (hw3 : 0 ≤ w3) (hu1 : 0 ≤ u1) (hu2 : 0 ≤ u2) (hu3 : 0 ≤ u3) :
    (checkPassengerRecord pid arrival w1 u1 w2 u2 w3 u3).sojourn =
        (checkPassengerRecord pid arrival w1 u1 w2 u2 w3 u3).departure -
          (checkPassengerRecord pid arrival w1 u1 w2 u2 w3 u3).arrival ∧
      (checkPassengerRecord pid arrival w1 u1 w2 u2 w3 u3).arrival <
        (checkPassengerRecord pid arrival w1 u1 w2 u2 w3 u3).departure := by
  constructor
  · rfl
  · have h1 : 0 ≤ (7 / 10 - 3 / 10 : ℚ) * u1 := by positivity
    have h2 : 0 ≤ (3 - 2 : ℚ) * u2 := by positivity
    have h3 : 0 ≤ (1 - 1 / 2 : ℚ) * u3 := by positivity
    simp only [checkPassengerRecord, checkPassengerDeparture, serviceDur]
    linarith

/-- C7 witness: a passenger arriving at time 3 with no queueing and
midpoint service draws. -/
theorem checkPassengerRecord_sojourn_pos_witness :
    (checkPassengerRecord 1 3 0 (1/2) 0 (1/2) 0 (1/2)).sojourn =
        (checkPassengerRecord 1 3 0 (1/2) 0 (1/2) 0 (1/2)).departure -
          (checkPassengerRecord 1 3 0 (1/2) 0 (1/2) 0 (1/2)).arrival ∧
      (checkPassengerRecord 1 3 0 (1/2) 0 (1/2) 0 (1/2)).arrival <
        (checkPassengerRecord 1 3 0 (1/2) 0 (1/2) 0 (1/2)).departure :=
  checkPassengerRecord_sojourn_pos 1 3 0 (1/2) 0 (1/2) 0 (1/2)
    le_rfl le_rfl le_rfl (by norm_num) (by norm_num) (by norm_num)

/-- C8: one `check_passenger` execution acquires, is serviced by and
releases the boarding-pass officer, the baggage screener and the body
screener in exactly that order — each stage's resource acquired before
its service and released before the next acquire, no stage skipped,
repeated or reordered — and departs exactly once, at the very end. -/
theorem checkPassengerActs_stage_order :
    checkPassengerActs =
        [.acquire .officer, .service .officer, .release .officer,
          .acquire .baggage, .service .baggage, .release .baggage,
          .acquire .body, .service .body, .release .body, .depart] ∧
      checkPassengerActs.count .depart = 1 ∧
      checkPassengerActs.getLast? = some .depart := by
  refine ⟨rfl, rfl, rfl⟩

/-- `round` of an integer-valued float is that integer. -/
theorem pyRound_intCast (n : ℤ) : pyRound (n : ℚ) = n := by
  simp [pyRound, Int.floor_intCast]

/-- Python rounding of a value in `[0, 60)` lands in `[0, 60]`. -/
theorem pyRound_bounds (x : ℚ) (h0 : 0 ≤ x) (h60 : x < 60) :
    0 ≤ pyRound x ∧ pyRound x ≤ 60 := by
  have hn0 : 0 ≤ ⌊x⌋ := Int.floor_nonneg.2 h0
  have hn59 : ⌊x⌋ ≤ 59 := by
    have hle : (⌊x⌋ : ℚ) < 60 := lt_of_le_of_lt (Int.floor_le x) h60
    have : ⌊x⌋ < (60 : ℤ) := by exact_mod_cast hle
    omega
  simp only [pyRound]
  split_ifs <;> constructor <;> omega

/-- Python rounding of a value in `[59.5, 60)` is exactly 60 (59.5 itself
rounds half-to-even, up to 60). -/
theorem pyRound_high (x : ℚ) (h595 : (119 / 2 : ℚ) ≤ x) (h60 : x < 60) :
    pyRound x = 60 := by
  have hn : ⌊x⌋ = 59 := by
    apply Int.floor_eq_iff.mpr
    constructor
    · push_cast; linarith
    · push_cast; linarith
  simp only [pyRound, hn]
  split_ifs with h1 h2 h3
  · exfalso; push_cast at h1; linarith
  · norm_num
  · exact absurd h3 (by decide)
  · norm_num

/-- C9: on a non-empty sojourn list with mean `m`, `calculate_wait_time`
returns `(⌊m⌋, round(60 * (m - ⌊m⌋)))`; the seconds component always
lies in `[0, 60]`, and whenever the fractional part of the mean is at
least `59.5/60` the seconds component is exactly 60, so a "k minutes and
60 seconds" summary is reachable. -/
theorem calculateWaitTime_mean_decomposition (ws : List ℚ) (h : ws ≠ []) :
    ∃ m : ℚ, statisticsMean ws = .ok m ∧
      calculateWaitTime ws = .ok (⌊m⌋, pyRound ((m - ⌊m⌋) * 60)) ∧
      0 ≤ pyRound ((m - ⌊m⌋) * 60) ∧ pyRound ((m - ⌊m⌋) * 60) ≤ 60 ∧
      ((119 / 120 : ℚ) ≤ m - ⌊m⌋ → pyRound ((m - ⌊m⌋) * 60) = 60) := by
  refine ⟨ws.sum / ws.length, by simp [statisticsMean, h], ?_, ?_, ?_, ?_⟩
  · simp [calculateWaitTime, statisticsMean, h, pyRound_intCast]
  all_goals
    set m : ℚ := ws.sum / ws.length with hm
    have hf0 : 0 ≤ m - ⌊m⌋ := sub_nonneg.2 (Int.floor_le m)
    have hf1 : m - ⌊m⌋ < 1 := by
      have := Int.lt_floor_add_one m
      linarith
    have hx0 : 0 ≤ (m - ⌊m⌋) * 60 := by positivity
    have hx60 : (m - ⌊m⌋) * 60 < 60 := by nlinarith
  · exact (pyRound_bounds _ hx0 hx60).1
  · exact (pyRound_bounds _ hx0 hx60).2
  · intro hfr
    exact pyRound_high _ (by nlinarith) hx60

/-- C9 witness: the single sojourn `119/120` minutes gives mean
`119/120`, whose summary is 0 minutes and 60 seconds. -/
theorem calculateWaitTime_mean_decomposition_witness :
    ([(119 / 120 : ℚ)] ≠ []) ∧
      (∃ m : ℚ, statisticsMean [(119 / 120 : ℚ)] = .ok m ∧
        calculateWaitTime [(119 / 120 : ℚ)] =
          .ok (⌊m⌋, pyRound ((m - ⌊m⌋) * 60)) ∧
        0 ≤ pyRound ((m - ⌊m⌋) * 60) ∧ pyRound ((m - ⌊m⌋) * 60) ≤ 60 ∧
        ((119 / 120 : ℚ) ≤ m - ⌊m⌋ → pyRound ((m - ⌊m⌋) * 60) = 60)) :=
  ⟨List.cons_ne_nil _ _,
    calculateWaitTime_mean_decomposition [(119 / 120 : ℚ)]
      (List.cons_ne_nil _ _)⟩

/-- Inserting an event whose sequence number is fresher than everything
pending places it after every event due no later than it and before
every strictly later event: at equal due times, earlier-scheduled events
stay ahead (FIFO by insertion sequence). -/
theorem insertEv_fifo {α : Type} (e : Ev α) :
    ∀ q : List (Ev α), q.Pairwise evLt → (∀ x ∈ q, x.seq < e.seq) →
      ∃ q1 q2, q = q1 ++ q2 ∧ insertEv e q = q1 ++ e :: q2 ∧
        (∀ x ∈ q1, x.due ≤ e.due) ∧ (∀ x ∈ q2, e.due < x.due) := by
  intro q
  induction q with
  | nil =>
    intro _ _
    exact ⟨[], [], rfl, rfl, by simp, by simp⟩
  | cons x xs ih =>
    intro hp hseq
    by_cases hc : evLt e x
    · have hdx : e.due < x.due := by
        rcases hc with h | ⟨_, hs⟩
        · exact h
        · have := hseq x (by simp)
          omega
      refine ⟨[], x :: xs, rfl, ?_, by simp, ?_⟩
      · simp [insertEv, hc]
      · intro y hy
        rcases List.mem_cons.1 hy with rfl | hy
        · exact hdx
        · have hxy : evLt x y := (List.pairwise_cons.1 hp).1 y hy
          rcases hxy with h | ⟨h, _⟩
          · exact hdx.trans h
          · exact h ▸ hdx
    · have hxd : x.due ≤ e.due := by
        have : ¬ e.due < x.due := fun hlt => hc (Or.inl hlt)
        exact le_of_not_lt this
      obtain ⟨q1, q2, hsplit, hins, h1, h2⟩ :=
        ih (List.pairwise_cons.1 hp).2 (fun y hy => hseq y (by simp [hy]))
      refine ⟨x :: q1, q2, by simp [hsplit], ?_, ?_, h2⟩
      · simp [insertEv, hc, hins]
      · intro y hy
        rcases List.mem_cons.1 hy with rfl | hy
        · exact hxd
        · exact h1 y hy

/-- C5: a run is a deterministic function of the injected random stream,
the configuration and the event budget — equal inputs give the identical
sequence of completion records — and the scheduler's tie-breaking is
deterministic: a newly scheduled event goes after all pending events of
equal or earlier due time (FIFO at equal times) and before all strictly
later ones. -/
theorem runAirport_deterministic :
    (∀ (d1 d2 : Nat → ℚ) (c1 c2 : Cfg) (f1 f2 : Nat),
      d1 = d2 → c1 = c2 → f1 = f2 →
        runAirport d1 c1 f1 = runAirport d2 c2 f2) ∧
    (∀ (e : Ev Act) (q : List (Ev Act)),
      q.Pairwise evLt → (∀ x ∈ q, x.seq < e.seq) →
        ∃ q1 q2, q = q1 ++ q2 ∧ insertEv e q = q1 ++ e :: q2 ∧
          (∀ x ∈ q1, x.due ≤ e.due) ∧ (∀ x ∈ q2, e.due < x.due)) := by
  constructor
  · intro d1 d2 c1 c2 f1 f2 hd hc hf
    rw [hd, hc, hf]
  · exact fun e => insertEv_fifo e

/-- C5 witness: the deterministic run at a concrete stream and
configuration, and the FIFO insertion at a concrete queue. -/
theorem runAirport_deterministic_witness :
    runAirport (fun _ => 1 / 2) ⟨.randomSel, 1, 4⟩ 120 =
        runAirport (fun _ => 1 / 2) ⟨.randomSel, 1, 4⟩ 120 ∧
      ∃ q1 q2, ([⟨0, 0, Act.arrStart⟩] : List (Ev Act)) = q1 ++ q2 ∧
        insertEv (⟨0, 1, Act.arrWake⟩ : Ev Act) [⟨0, 0, Act.arrStart⟩] =
          q1 ++ ⟨0, 1, Act.arrWake⟩ :: q2 ∧
        (∀ x ∈ q1, x.due ≤ (0 : ℚ)) ∧ (∀ x ∈ q2, (0 : ℚ) < x.due) :=
  ⟨runAirport_deterministic.1 _ _ _ _ _ _ rfl rfl rfl,
    runAirport_deterministic.2 ⟨0, 1, Act.arrWake⟩ [⟨0, 0, Act.arrStart⟩]
      (by simp) (by simp)⟩

/-- C1: on a capacity-1 pool with entities 1, 2, 3 requesting `acquire`
at times 0, 1, 2 and holding the pool for 5 each, entity 1 starts at 0,
entity 2 at 5 and entity 3 at 10 — strict request order. In general, a
release hands the freed slot to the head of the FCFS queue (the earliest
waiter, never a later one), and a blocked acquire joins the queue at its
tail. -/
theorem resourcePool_fcfs :
    fcfsRun 1 5 [0, 1, 2] 20 = [(1, 0), (2, 5), (3, 10)] ∧
      (∀ (p : ResourcePool) (w : Nat) (rest : List Nat),
        p.waiters = w :: rest →
          p.release = ({ p with waiters := rest }, some w)) ∧
      (∀ (p : ResourcePool) (e : Nat),
        (p.enqueue e).waiters = p.waiters ++ [e]) := by
  refine ⟨of_decide_eq_true (by with_unfolding_all rfl), ?_, fun p e => rfl⟩
  intro p w rest hw
  simp [ResourcePool.release, hw]

/-- C1 witness: the scenario's start times, a concrete release handing
the slot to the earliest of two waiters, and a concrete enqueue at the
tail. -/
theorem resourcePool_fcfs_witness :
    fcfsRun 1 5 [0, 1, 2] 20 = [(1, 0), (2, 5), (3, 10)] ∧
      (⟨1, 1, [7, 9]⟩ : ResourcePool).release = (⟨1, 1, [9]⟩, some 7) ∧
      ((⟨1, 1, [7, 9]⟩ : ResourcePool).enqueue 4).waiters = [7, 9, 4] :=
  ⟨resourcePool_fcfs.1,
    resourcePool_fcfs.2.1 ⟨1, 1, [7, 9]⟩ 7 [9] rfl,
    resourcePool_fcfs.2.2 ⟨1, 1, [7, 9]⟩ 4⟩

/-- Invariant of `choose_dynamic_lane`'s loop, from a finite running
best `(some l, j, some w)`: the result's load is the minimum of `w` and
the remaining lanes' loads; either the running best is kept, or the
result is the first remaining lane strictly below both `w` and every
lane before it, with its absolute index `i + k`. -/
theorem chooseGo_spec (xs : List Lane) :
    ∀ (i : Nat) (l : Lane) (j : Int) (w : Nat),
      ∃ (l2 : Lane) (ji : Int) (w2 : Nat),
        chooseGo xs i (some l, j, some w) = (some l2, ji, some w2) ∧
        w2 ≤ w ∧ (∀ y ∈ xs, w2 ≤ laneLoad y) ∧
        ((l2 = l ∧ ji = j ∧ w2 = w) ∨
          (∃ k, ∃ hk : k < xs.length,
            l2 = xs.get ⟨k, hk⟩ ∧ ji = ((i + k : Nat) : Int) ∧
            w2 = laneLoad l2 ∧ w2 < w ∧
            ∀ m, ∀ hm : m < k,
              w2 < laneLoad (xs.get ⟨m, Nat.lt_trans hm hk⟩))) := by
  induction xs with
  | nil =>
    intro i l j w
    exact ⟨l, j, w, rfl, le_rfl, by simp, Or.inl ⟨rfl, rfl, rfl⟩⟩
  | cons x xs ih =>
    intro i l j w
    by_cases hx : laneLoad x < w
    · obtain ⟨l2, ji, w2, heq, hle, hall, hdis⟩ :=
        ih (i + 1) x (i : Int) (laneLoad x)
      refine ⟨l2, ji, w2, ?_, hle.trans hx.le, ?_, ?_⟩
      · simpa [chooseGo, hx] using heq
      · intro y hy
        rcases List.mem_cons.1 hy with rfl | hy
        · exact hle
        · exact hall y hy
      · right
        rcases hdis with ⟨hl2, hji, hw2⟩ | ⟨k, hk, hget, hji, hw2, hlt, hfirst⟩
        · refine ⟨0, by simp, hl2, by simpa using hji, ?_, hw2 ▸ hx, ?_⟩
          · rw [hw2, hl2]
          · intro m hm
            exact absurd hm (Nat.not_lt_zero m)
        · refine ⟨k + 1, Nat.succ_lt_succ hk, hget, ?_, hw2, hlt.trans hx, ?_⟩
          · rw [hji]
            congr 1
            omega
          · intro m hm
            match m, hm with
            | 0, _ => exact hlt
            | m' + 1, hm => exact hfirst m' (Nat.lt_of_succ_lt_succ hm)
    · have hwx : w ≤ laneLoad x := le_of_not_lt hx
      obtain ⟨l2, ji, w2, heq, hle, hall, hdis⟩ := ih (i + 1) l j w
      refine ⟨l2, ji, w2, ?_, hle, ?_, ?_⟩
      · simpa [chooseGo, hx] using heq
      · intro y hy
        rcases List.mem_cons.1 hy with rfl | hy
        · exact hle.trans hwx
        · exact hall y hy
      · rcases hdis with hkeep | ⟨k, hk, hget, hji, hw2, hlt, hfirst⟩
        · exact Or.inl hkeep
        · refine Or.inr ⟨k + 1, Nat.succ_lt_succ hk, hget, ?_, hw2,
            hlt, ?_⟩
          · rw [hji]
            congr 1
            omega
          · intro m hm
            match m, hm with
            | 0, _ => exact lt_of_lt_of_le hlt hwx
            | m' + 1, hm => exact hfirst m' (Nat.lt_of_succ_lt_succ hm)

/-- `choose_dynamic_lane` on a non-empty lane list returns the first
lane of minimum total load, together with its index. -/
theorem chooseDynamicLane_cons_spec (x : Lane) (xs : List Lane) :
    ∃ (i : Nat) (hi : i < (x :: xs).length),
      chooseDynamicLane (x :: xs) = (some ((x :: xs).get ⟨i, hi⟩), (i : Int)) ∧
      (∀ y ∈ x :: xs, laneLoad ((x :: xs).get ⟨i, hi⟩) ≤ laneLoad y) ∧
      (∀ m, ∀ hm : m < i,
        laneLoad ((x :: xs).get ⟨i, hi⟩) <
          laneLoad ((x :: xs).get ⟨m, Nat.lt_trans hm hi⟩)) := by
  obtain ⟨l2, ji, w2, heq, hle, hall, hdis⟩ :=
    chooseGo_spec xs 1 x (0 : Int) (laneLoad x)
  have hstep : chooseDynamicLane (x :: xs) = (some l2, ji) := by
    simp [chooseDynamicLane, chooseGo, heq]
  rcases hdis with ⟨hl2, hji, hw2⟩ | ⟨k, hk, hget, hji, hw2, hlt, hfirst⟩
  · have h0 : (0 : Nat) < (x :: xs).length := by simp
    refine ⟨0, h0, ?_, ?_, ?_⟩
    · rw [hstep, hl2, hji]
      rfl
    · intro y hy
      have hx0 : (x :: xs).get ⟨0, h0⟩ = x := rfl
      rcases List.mem_cons.1 hy with rfl | hy
      · exact le_rfl
      · have hz := hall y hy
        rw [hx0, ← hw2]
        exact hz
    · intro m hm
      exact absurd hm (Nat.not_lt_zero m)
  · have hi : k + 1 < (x :: xs).length := Nat.succ_lt_succ hk
    have hgetEq : (x :: xs).get ⟨k + 1, hi⟩ = xs.get ⟨k, hk⟩ := rfl
    have hload : laneLoad ((x :: xs).get ⟨k + 1, hi⟩) = w2 := by
      rw [hgetEq, ← hget, ← hw2]
    refine ⟨k + 1, hi, ?_, ?_, ?_⟩
    · rw [hstep, hji, hgetEq, ← hget]
      have : ((1 + k : Nat) : Int) = ((k + 1 : Nat) : Int) := by omega
      rw [this]
    · intro y hy
      rw [hload]
      rcases List.mem_cons.1 hy with rfl | hy
      · exact hle
      · exact hall y hy
    · intro m hm
      rw [hload]
      match m, hm with
      | 0, _ => exact hlt
      | m' + 1, hm =>
        have hm' : m' < k := Nat.lt_of_succ_lt_succ hm
        have : (x :: xs).get ⟨m' + 1, Nat.lt_trans hm hi⟩ =
            xs.get ⟨m', Nat.lt_trans hm' hk⟩ := rfl
        rw [this]
        exact hfirst m' hm'

/-- C2: on any non-empty lane list, `choose_dynamic_lane` picks a lane
whose total load (per-stage wait-queue length plus 1 when the resource
is at capacity, summed over the three stages) is less than or equal to
every lane's load at that instant; among equally loaded lanes the
lowest index wins (every earlier lane is strictly more loaded); and the
chosen index is fixed once and used for all three of the passenger's
stages. -/
theorem chooseDynamicLane_least_loaded (lanes : List Lane) (h : lanes ≠ []) :
    ∃ (i : Nat) (hi : i < lanes.length),
      chooseDynamicLane lanes = (some (lanes.get ⟨i, hi⟩), (i : Int)) ∧
      (∀ y ∈ lanes, laneLoad (lanes.get ⟨i, hi⟩) ≤ laneLoad y) ∧
      (∀ m, ∀ hm : m < i,
        laneLoad (lanes.get ⟨i, hi⟩) <
          laneLoad (lanes.get ⟨m, Nat.lt_trans hm hi⟩)) ∧
      checkPassengerLaneSeq lanes =
        [((i : Int), .officer), ((i : Int), .baggage), ((i : Int), .body)] := by
  match lanes, h with
  | x :: xs, _ =>
    obtain ⟨i, hi, heq, hmin, htie⟩ := chooseDynamicLane_cons_spec x xs
    exact ⟨i, hi, heq, hmin, htie, by simp [checkPassengerLaneSeq, heq]⟩

/-- C2 witness: two capacity-1 lanes, the first with a busy officer and
one queued waiter (load 2), the second idle (load 0): the second lane is
chosen. -/
theorem chooseDynamicLane_least_loaded_witness :
    ([⟨⟨1, 1, [5]⟩, ⟨1, 0, []⟩, ⟨1, 0, []⟩⟩,
        ⟨⟨1, 0, []⟩, ⟨1, 0, []⟩, ⟨1, 0, []⟩⟩] : List Lane) ≠ [] ∧
      ∃ (i : Nat)
        (hi : i < ([⟨⟨1, 1, [5]⟩, ⟨1, 0, []⟩, ⟨1, 0, []⟩⟩,
          ⟨⟨1, 0, []⟩, ⟨1, 0, []⟩, ⟨1, 0, []⟩⟩] : List Lane).length),
        chooseDynamicLane [⟨⟨1, 1, [5]⟩, ⟨1, 0, []⟩, ⟨1, 0, []⟩⟩,
            ⟨⟨1, 0, []⟩, ⟨1, 0, []⟩, ⟨1, 0, []⟩⟩] =
          (some (([⟨⟨1, 1, [5]⟩, ⟨1, 0, []⟩, ⟨1, 0, []⟩⟩,
            ⟨⟨1, 0, []⟩, ⟨1, 0, []⟩, ⟨1, 0, []⟩⟩] : List Lane).get ⟨i, hi⟩),
            (i : Int)) ∧
        (∀ y ∈ ([⟨⟨1, 1, [5]⟩, ⟨1, 0, []⟩, ⟨1, 0, []⟩⟩,
            ⟨⟨1, 0, []⟩, ⟨1, 0, []⟩, ⟨1, 0, []⟩⟩] : List Lane),
          laneLoad (([⟨⟨1, 1, [5]⟩, ⟨1, 0, []⟩, ⟨1, 0, []⟩⟩,
            ⟨⟨1, 0, []⟩, ⟨1, 0, []⟩, ⟨1, 0, []⟩⟩] : List Lane).get ⟨i, hi⟩) ≤
            laneLoad y) ∧
        (∀ m, ∀ hm : m < i,
          laneLoad (([⟨⟨1, 1, [5]⟩, ⟨1, 0, []⟩, ⟨1, 0, []⟩⟩,
            ⟨⟨1, 0, []⟩, ⟨1, 0, []⟩, ⟨1, 0, []⟩⟩] : List Lane).get ⟨i, hi⟩) <
            laneLoad (([⟨⟨1, 1, [5]⟩, ⟨1, 0, []⟩, ⟨1, 0, []⟩⟩,
              ⟨⟨1, 0, []⟩, ⟨1, 0, []⟩, ⟨1, 0, []⟩⟩] : List Lane).get
                ⟨m, Nat.lt_trans hm hi⟩)) ∧
        checkPassengerLaneSeq [⟨⟨1, 1, [5]⟩, ⟨1, 0, []⟩, ⟨1, 0, []⟩⟩,
            ⟨⟨1, 0, []⟩, ⟨1, 0, []⟩, ⟨1, 0, []⟩⟩] =
          [((i : Int), .officer), ((i : Int), .baggage), ((i : Int), .body)] :=
  ⟨List.cons_ne_nil _ _,
    chooseDynamicLane_least_loaded _ (List.cons_ne_nil _ _)⟩

/-- C10: `choose_dynamic_lane` of an empty lane list does not fail: it
returns `(None, -1)`; on any non-empty list it returns an actual lane of
the list together with its index, which lies in `[0, length)`. -/
theorem chooseDynamicLane_total :
    chooseDynamicLane ([] : List Lane) = (none, -1) ∧
      ∀ lanes : List Lane, lanes ≠ [] →
        ∃ (i : Nat) (hi : i < lanes.length),
          chooseDynamicLane lanes = (some (lanes.get ⟨i, hi⟩), (i : Int)) ∧
            0 ≤ (i : Int) := by
  refine ⟨rfl, ?_⟩
  intro lanes h
  match lanes, h with
  | x :: xs, _ =>
    obtain ⟨i, hi, heq, _, _⟩ := chooseDynamicLane_cons_spec x xs
    exact ⟨i, hi, heq, Int.natCast_nonneg i⟩

/-- C10 witness: the one-idle-lane list, where lane 0 is returned. -/
theorem chooseDynamicLane_total_witness :
    ([⟨⟨1, 0, []⟩, ⟨1, 0, []⟩, ⟨1, 0, []⟩⟩] : List Lane) ≠ [] ∧
      ∃ (i : Nat)
        (hi : i < ([⟨⟨1, 0, []⟩, ⟨1, 0, []⟩, ⟨1, 0, []⟩⟩] : List Lane).length),
        chooseDynamicLane [⟨⟨1, 0, []⟩, ⟨1, 0, []⟩, ⟨1, 0, []⟩⟩] =
          (some (([⟨⟨1, 0, []⟩, ⟨1, 0, []⟩, ⟨1, 0, []⟩⟩] : List Lane).get
            ⟨i, hi⟩), (i : Int)) ∧ 0 ≤ (i : Int) :=
  ⟨List.cons_ne_nil _ _,
    chooseDynamicLane_total.2 _ (List.cons_ne_nil _ _)⟩

end AirportSecuritySim
